import Mathlib

/-!
Verification of the reactivity core of the analysed Vue 2.6 sources.

The development shallowly embeds the reactive-system parts of the repository:
the accessor pair installed by `defineReactive` (src/unnamed/part_002), the
intercepted array mutators (src/unnamed/part_001), the `Watcher` dependency
bookkeeping, evaluation and run logic (src/core/observer/watcher.js), the
deep-watch `traverse` (src/core/observer/traverse.js), the structural mutation
helpers `set`/`del` (src/unnamed/part_002) and the `nextTick` microtask queue
(tail of src/core/util/options.js).

JavaScript values are modelled by the inductive type `JSValue`: primitives are
carried structurally and objects/arrays are represented by a reference
identity, which is exactly what the `===` comparisons in the embedded code
inspect.  Numbers are modelled by `Int` plus a distinguished `nanV`
constructor, the only value for which JavaScript self-equality fails.
-/

namespace VueCore

/-- A JavaScript value as seen by the reactivity core: `undefined`, `null`,
`NaN`, a (finite, non-NaN) number, a string, a boolean, or an object/array
reference identified by a heap address.  `===` never looks inside an object,
so reference identity is all the embedding needs for objects. -/
inductive JSValue where
  | undefinedV
  | nullV
  | nanV
  | numV (n : Int)
  | strV (s : String)
  | boolV (b : Bool)
  | refV (r : Nat)
deriving DecidableEq, Repr

/-- JavaScript strict equality `===` on the modelled values: `NaN` is equal to
nothing (itself included); every other value is equal exactly to itself
(references by address, primitives by value; distinct constructors model
distinct runtime types, for which `===` is false). -/
def strictEq : JSValue → JSValue → Bool
  | .nanV, _ => false
  | _, .nanV => false
  | a, b => a == b

/-- Vue's `isObject` helper (`typeof val === 'object' && val !== null`):
true exactly for object/array references.  The helper lives in shared/util,
outside the analysed files; its meaning is fixed by the spec's
"non-primitive object/array reference". -/
def isObject : JSValue → Bool
  | .refV _ => true
  | _ => false

/-- Observable outcome of one invocation of the setter installed by
`defineReactive` (src/unnamed/part_002, `reactiveSetter`).
`objState` is the state of the underlying object as seen by a pre-existing
accessor pair, `val` the closure-captured current value, `notifies` how many
times the field Dep's `notify()` ran, and `observedNewVal` whether the
`childOb = !shallow && observe(newVal)` re-derivation was executed. -/
structure SetterResult (S : Type) where
  objState : S
  val : JSValue
  notifies : Nat
  observedNewVal : Bool
deriving Repr

/-- The setter installed by `defineReactive` (src/unnamed/part_002 lines
229-252).  `oldGet`/`oldSet` are the cached pre-existing accessors (`none`
for a plain data field); `s` is the underlying object state they act on and
`val` the closure variable.  Mirrors the source line by line:
read `value` through the old getter if present, return unchanged on `===`
identity or on the double-NaN self-inequality check, return without storing
when the field had a getter but no setter (#7981), otherwise delegate to the
old setter or store into `val`, re-derive `childOb` by observing the new
value, and fire `dep.notify()`.  The dev-mode `customSetter()` diagnostic
mutates nothing and is not modelled. -/
def reactiveSetter {S : Type} (oldGet : Option (S → JSValue))
    (oldSet : Option (S → JSValue → S)) (s : S) (val newVal : JSValue) :
    SetterResult S :=
  let value := match oldGet with
    | some g => g s
    | none => val
  if strictEq newVal value || (!strictEq newVal newVal && !strictEq value value) then
    ⟨s, val, 0, false⟩
  else if oldGet.isSome && oldSet.isNone then
    ⟨s, val, 0, false⟩
  else
    match oldSet with
    | some st => ⟨st s newVal, val, 1, true⟩
    | none => ⟨s, newVal, 1, true⟩

/-- The getter installed by `defineReactive` (src/unnamed/part_002 lines
200-228), restricted to its value behaviour: `const value = getter ?
getter.call(obj) : val`.  The returned Bool records whether the dependency
collection branch ran (`Dep.target` non-null at read time). -/
def reactiveGetter {S : Type} (oldGet : Option (S → JSValue)) (s : S)
    (val : JSValue) (hasTarget : Bool) : JSValue × Bool :=
  (match oldGet with
    | some g => g s
    | none => val,
   hasTarget)

/-- On a plain data field (no pre-existing accessors) the guard of
`reactiveSetter` fires exactly when the new value is `===`-identical to the
current one or both fail self-equality. -/
theorem reactiveSetter_guard (val newVal : JSValue) :
    (strictEq newVal val || (!strictEq newVal newVal && !strictEq val val)) = true ↔
      (strictEq newVal val = true ∨ (strictEq newVal newVal = false ∧ strictEq val val = false)) := by
  cases h : strictEq newVal val <;> simp [h]

/-- C1: for a reactive data field installed by `defineReactive`, a write whose
new value is reference-identical (`===`) to the current one, or where both the
new and the current value fail self-equality (both `NaN`), leaves the stored
value unchanged and never calls the field Dep's `notify()`; any other write
stores the new value, re-derives the nested wrapper by observing the new
value, and calls `notify()` exactly once.  (Fields with a pre-existing
accessor pair are the subject of C9.) -/
theorem C1_defineReactive_write (val newVal : JSValue) :
    ((strictEq newVal val = true ∨
        (strictEq newVal newVal = false ∧ strictEq val val = false)) →
      reactiveSetter (S := Unit) none none () val newVal = ⟨(), val, 0, false⟩) ∧
    ((strictEq newVal val = false ∧
        (strictEq newVal newVal = true ∨ strictEq val val = true)) →
      reactiveSetter (S := Unit) none none () val newVal = ⟨(), newVal, 1, true⟩) := by
  constructor
  · intro h
    have hg : (strictEq newVal val || (!strictEq newVal newVal && !strictEq val val)) = true :=
      (reactiveSetter_guard val newVal).mpr h
    simp [reactiveSetter, hg]
  · rintro ⟨h1, h2⟩
    have hg : (strictEq newVal val || (!strictEq newVal newVal && !strictEq val val)) = false := by
      rcases h2 with h2 | h2 <;> simp [h1, h2]
    simp [reactiveSetter, hg]

/-- Witness for C1: writing `NaN` over `NaN` stores nothing and does not
notify, while writing `2` over `1` stores `2` and notifies exactly once. -/
theorem C1_defineReactive_write_witness :
    reactiveSetter (S := Unit) none none () JSValue.nanV JSValue.nanV = ⟨(), JSValue.nanV, 0, false⟩ ∧
    reactiveSetter (S := Unit) none none () (JSValue.numV 1) (JSValue.numV 2) = ⟨(), JSValue.numV 2, 1, true⟩ :=
  ⟨(C1_defineReactive_write JSValue.nanV JSValue.nanV).1 (by decide),
   (C1_defineReactive_write (JSValue.numV 1) (JSValue.numV 2)).2 (by decide)⟩

/-! ## Watcher dependency bookkeeping (src/core/observer/watcher.js)

`Dep` itself lives in src/core/observer/dep.js, which is not among the
analysed files; per §4.1 of the spec its subscriber list supports
`addSub`/`removeSub` ("list insert/remove by reference") and `notify`
(invoke `update()` on every currently subscribed Subscriber).  The store of
all subscriber lists is modelled as a function from Dep id to the list of
watcher ids subscribed to it — Dep ids are unique (`uid++` per Dep), so the
function is a faithful rendering of "the Dep object with that id". -/

/-- Subscriber lists of every Dep, indexed by Dep id.  Each list holds
watcher ids in subscription order. -/
abbrev SubStore := Nat → List Nat

/-- Modelled from the spec: `Dep.addSub` (dep.js is not among the analysed
sources) — append the watcher to this Dep's subscriber list. -/
def addSub (store : SubStore) (i w : Nat) : SubStore :=
  fun j => if j = i then store j ++ [w] else store j

/-- Remove the first occurrence of `w` (the `remove` helper of shared/util:
`indexOf` + `splice(i, 1)`). -/
def removeFirst (w : Nat) : List Nat → List Nat
  | [] => []
  | x :: xs => if x = w then xs else x :: removeFirst w xs

/-- Modelled from the spec: `Dep.removeSub` (dep.js is not among the analysed
sources) — remove the watcher from this Dep's subscriber list by reference. -/
def removeSub (store : SubStore) (i w : Nat) : SubStore :=
  fun j => if j = i then removeFirst w (store j) else store j

/-- Modelled from the spec: `Dep.notify` invokes `update()` on every
currently subscribed Subscriber, so the watchers a `notify()` on Dep `i`
re-evaluates are exactly the current subscriber list. -/
def notifyTargets (store : SubStore) (i : Nat) : List Nat :=
  store i

/-- The dependency-tracking slice of a `Watcher`'s state: `deps`/`depIds`
hold the previous evaluation's Dep ids, `newDeps`/`newDepIds` the ones
collected by the evaluation in progress (watcher.js lines 99-104). -/
structure WDeps where
  deps : List Nat
  depIds : List Nat
  newDeps : List Nat
  newDepIds : List Nat
deriving DecidableEq, Repr

/-- The fresh bookkeeping state a watcher is constructed with. -/
def WDeps.init : WDeps := ⟨[], [], [], []⟩

/-- `Watcher.addDep` (watcher.js lines 175-192) for watcher `w` reading the
Dep with id `i`: record the Dep in the current-cycle sets unless already
there, and call `dep.addSub(this)` only when the id is also absent from the
previous-cycle set `depIds`. -/
def addDep (w : Nat) (ws : WDeps) (i : Nat) (store : SubStore) : WDeps × SubStore :=
  if i ∈ ws.newDepIds then
    (ws, store)
  else
    let ws' : WDeps := { ws with newDeps := ws.newDeps ++ [i], newDepIds := ws.newDepIds ++ [i] }
    if i ∈ ws.depIds then
      (ws', store)
    else
      (ws', addSub store i w)

/-- `Watcher.cleanupDeps` (watcher.js lines 198-228) for watcher `w`: walk
the previous cycle's `deps` from the back, removing the watcher from every
Dep whose id the fresh `newDepIds` set lacks; then the new sets become the
previous sets and the working sets are cleared (the source swaps the two
containers and clears the now-working one). -/
def cleanupDeps (w : Nat) (ws : WDeps) (store : SubStore) : WDeps × SubStore :=
  let store' := ws.deps.foldr
    (fun i st => if i ∈ ws.newDepIds then st else removeSub st i w) store
  (⟨ws.newDeps, ws.newDepIds, [], []⟩, store')

/-- One bookkeeping-relevant step in a watcher's life: reading a Dep
(`Dep.depend` calling `addDep`) or finishing an evaluation (`cleanupDeps`). -/
inductive WOp where
  | read (i : Nat)
  | cleanup
deriving DecidableEq, Repr

/-- Run a sequence of bookkeeping steps for watcher `w`. -/
def runOps (w : Nat) : List WOp → WDeps × SubStore → WDeps × SubStore
  | [], st => st
  | .read i :: ops, (ws, store) => runOps w ops (addDep w ws i store)
  | .cleanup :: ops, (ws, store) => runOps w ops (cleanupDeps w ws store)

/-- `removeFirst` yields a sublist, so it never introduces members. -/
theorem removeFirst_sublist (w : Nat) (l : List Nat) :
    List.Sublist (removeFirst w l) l := by
  induction l with
  | nil => simp [removeFirst]
  | cons x xs ih =>
    by_cases h : x = w
    · simp [removeFirst, h]
    · simpa [removeFirst, h] using ih.cons₂ x

theorem count_removeFirst_le (w : Nat) (l : List Nat) :
    (removeFirst w l).count w ≤ l.count w :=
  (removeFirst_sublist w l).count_le w

/-- Removing the only occurrence of `w` eliminates membership. -/
theorem not_mem_removeFirst_of_count_le_one {w : Nat} {l : List Nat}
    (h : l.count w ≤ 1) : w ∉ removeFirst w l := by
  induction l with
  | nil => simp [removeFirst]
  | cons x xs ih =>
    by_cases hx : x = w
    · subst hx
      have : xs.count x = 0 := by
        have := h
        simp [List.count_cons] at this
        omega
      simpa [removeFirst] using (List.count_eq_zero.mp this)
    · have hx' : xs.count w ≤ 1 := by
        have := h
        simpa [List.count_cons, hx] using this
      simpa [removeFirst, hx, Ne.symm hx] using ih hx'

theorem mem_removeFirst_of_mem {w x : Nat} {l : List Nat}
    (hx : x ∈ removeFirst w l) : x ∈ l :=
  (removeFirst_sublist w l).mem hx

/-- The pruning fold of `cleanupDeps`, named so it can be reasoned about. -/
def pruneFold (w : Nat) (newIds : List Nat) (deps : List Nat) (store : SubStore) : SubStore :=
  deps.foldr (fun i st => if i ∈ newIds then st else removeSub st i w) store

theorem cleanupDeps_eq (w : Nat) (ws : WDeps) (store : SubStore) :
    cleanupDeps w ws store =
      (⟨ws.newDeps, ws.newDepIds, [], []⟩, pruneFold w ws.newDepIds ws.deps store) := rfl

/-- The pruning fold only ever shrinks subscriber lists (pointwise sublist). -/
theorem pruneFold_sublist (w : Nat) (newIds deps : List Nat) (store : SubStore) (j : Nat) :
    List.Sublist (pruneFold w newIds deps store j) (store j) := by
  induction deps with
  | nil => simp [pruneFold]
  | cons a t ih =>
    by_cases ha : a ∈ newIds
    · simpa [pruneFold, ha] using ih
    · by_cases hj : j = a
      · subst hj
        refine List.Sublist.trans ?_ ih
        simpa [pruneFold, ha, removeSub] using removeFirst_sublist w _
      · simpa [pruneFold, ha, removeSub, hj] using ih

/-- At a previous-cycle Dep id absent from the fresh set, the pruning fold
removes the watcher entirely, provided it was subscribed at most once. -/
theorem pruneFold_not_mem (w : Nat) (newIds deps : List Nat) (store : SubStore)
    {i : Nat} (hi : i ∈ deps) (hnew : i ∉ newIds)
    (hcount : (store i).count w ≤ 1) :
    w ∉ pruneFold w newIds deps store i := by
  induction deps with
  | nil => cases hi
  | cons a t ih =>
    by_cases hmem : a ∈ newIds
    · have hit : i ∈ t := by
        rcases List.mem_cons.mp hi with rfl | h
        · exact absurd hmem hnew
        · exact h
      simpa [pruneFold, hmem] using ih hit
    · rcases List.mem_cons.mp hi with rfl | hit
      · -- the step for `i` itself runs `removeSub` at point `i`
        have hsub : List.Sublist (pruneFold w newIds t store i) (store i) :=
          pruneFold_sublist w newIds t store i
        have hc : (pruneFold w newIds t store i).count w ≤ 1 :=
          le_trans (hsub.count_le w) hcount
        simpa [pruneFold, hmem, removeSub] using
          not_mem_removeFirst_of_count_le_one hc
      · by_cases hj : i = a
        · subst hj
          have hsub : List.Sublist (pruneFold w newIds t store i) (store i) :=
            pruneFold_sublist w newIds t store i
          have hc : (pruneFold w newIds t store i).count w ≤ 1 :=
            le_trans (hsub.count_le w) hcount
          simpa [pruneFold, hmem, removeSub] using
            not_mem_removeFirst_of_count_le_one hc
        · simpa [pruneFold, hmem, removeSub, hj] using ih hit

/-- Dep ids untouched by the previous cycle keep their subscriber list. -/
theorem pruneFold_not_mem_deps (w : Nat) (newIds deps : List Nat) (store : SubStore)
    {j : Nat} (hj : j ∉ deps) :
    pruneFold w newIds deps store j = store j := by
  induction deps with
  | nil => simp [pruneFold]
  | cons a t ih =>
    have hja : j ≠ a := fun h => hj (by simp [h])
    have hjt : j ∉ t := fun h => hj (List.mem_cons_of_mem _ h)
    by_cases hmem : a ∈ newIds
    · simpa [pruneFold, hmem] using ih hjt
    · simpa [pruneFold, hmem, removeSub, hja] using ih hjt

/-- Dep ids kept by the fresh cycle are never pruned. -/
theorem pruneFold_mem_newIds (w : Nat) (newIds deps : List Nat) (store : SubStore)
    {j : Nat} (hj : j ∈ newIds) :
    pruneFold w newIds deps store j = store j := by
  induction deps with
  | nil => simp [pruneFold]
  | cons a t ih =>
    by_cases hmem : a ∈ newIds
    · simpa [pruneFold, hmem] using ih
    · have hja : j ≠ a := fun h => hmem (h ▸ hj)
      simpa [pruneFold, hmem, removeSub, hja] using ih

/-- C2: after every evaluation, `cleanupDeps` removes the watcher from every
Dep of the previous cycle that the fresh cycle did not collect (so that Dep's
`notify()` no longer reaches the watcher), the fresh sets become the
previous sets, and the working sets are emptied. -/
theorem C2_cleanupDeps_prunes (w : Nat) (ws : WDeps) (store : SubStore)
    (hcount : ∀ j, (store j).count w ≤ 1) :
    (∀ i, i ∈ ws.deps → i ∉ ws.newDepIds →
        w ∉ notifyTargets (cleanupDeps w ws store).2 i) ∧
    (∀ i, i ∈ ws.newDepIds →
        notifyTargets (cleanupDeps w ws store).2 i = notifyTargets store i) ∧
    (cleanupDeps w ws store).1 = ⟨ws.newDeps, ws.newDepIds, [], []⟩ := by
  refine ⟨?_, ?_, rfl⟩
  · intro i hi hnew
    simpa [cleanupDeps_eq, notifyTargets] using
      pruneFold_not_mem w ws.newDepIds ws.deps store hi hnew (hcount i)
  · intro i hi
    simpa [cleanupDeps_eq, notifyTargets] using
      pruneFold_mem_newIds w ws.newDepIds ws.deps store hi

/-- Witness for C2: a watcher subscribed to Deps 1 and 2 whose fresh cycle
kept only Dep 2 is pruned from Dep 1, keeps Dep 2, and ends with the fresh
sets promoted and the working sets empty. -/
theorem C2_cleanupDeps_prunes_witness :
    (∀ i, i ∈ [1, 2] → i ∉ [2] →
        7 ∉ notifyTargets (cleanupDeps 7 ⟨[1, 2], [1, 2], [2], [2]⟩
          (fun j => if j = 1 then [7] else if j = 2 then [7] else [])).2 i) ∧
    (∀ i, i ∈ [2] →
        notifyTargets (cleanupDeps 7 ⟨[1, 2], [1, 2], [2], [2]⟩
          (fun j => if j = 1 then [7] else if j = 2 then [7] else [])).2 i =
        notifyTargets (fun j => if j = 1 then [7] else if j = 2 then [7] else []) i) ∧
    (cleanupDeps 7 ⟨[1, 2], [1, 2], [2], [2]⟩
        (fun j => if j = 1 then [7] else if j = 2 then [7] else [])).1 =
      ⟨[2], [2], [], []⟩ :=
  C2_cleanupDeps_prunes 7 ⟨[1, 2], [1, 2], [2], [2]⟩
    (fun j => if j = 1 then [7] else if j = 2 then [7] else [])
    (by intro j; by_cases h1 : j = 1 <;> by_cases h2 : j = 2 <;> simp [h1, h2])

/-- The bookkeeping invariant a watcher `w` maintains across reads and
re-evaluations: it is subscribed at most once to any Dep, it is subscribed
exactly to the Deps recorded in the previous- or current-cycle id sets, the
id sets mirror the Dep lists, and the current-cycle id set has no
duplicates. -/
structure WInv (w : Nat) (ws : WDeps) (store : SubStore) : Prop where
  count_le : ∀ j, (store j).count w ≤ 1
  mem_iff : ∀ j, w ∈ store j ↔ (j ∈ ws.depIds ∨ j ∈ ws.newDepIds)
  deps_iff : ∀ j, j ∈ ws.deps ↔ j ∈ ws.depIds
  newDeps_iff : ∀ j, j ∈ ws.newDeps ↔ j ∈ ws.newDepIds
  nodup_new : ws.newDepIds.Nodup

/-- A freshly constructed watcher, subscribed nowhere, satisfies the
invariant. -/
theorem WInv.start (w : Nat) (store : SubStore) (h : ∀ j, w ∉ store j) :
    WInv w WDeps.init store := by
  refine ⟨?_, ?_, ?_, ?_, ?_⟩
  · intro j
    simp [List.count_eq_zero_of_not_mem (h j)]
  · intro j
    simp [WDeps.init, h j]
  · intro j; simp [WDeps.init]
  · intro j; simp [WDeps.init]
  · simp [WDeps.init]

/-- `addDep` preserves the bookkeeping invariant. -/
theorem addDep_WInv {w : Nat} {ws : WDeps} {store : SubStore} (i : Nat)
    (h : WInv w ws store) :
    WInv w (addDep w ws i store).1 (addDep w ws i store).2 := by
  by_cases h1 : i ∈ ws.newDepIds
  · simpa [addDep, h1] using h
  · by_cases h2 : i ∈ ws.depIds
    · have heq : addDep w ws i store =
          ({ ws with newDeps := ws.newDeps ++ [i], newDepIds := ws.newDepIds ++ [i] }, store) := by
        simp [addDep, h1, h2]
      rw [heq]
      refine ⟨h.count_le, ?_, h.deps_iff, ?_, ?_⟩
      · intro j
        rw [h.mem_iff j]
        constructor
        · rintro (hj | hj) <;> simp [hj]
        · rintro (hj | hj)
          · exact Or.inl hj
          · rcases List.mem_append.mp hj with hj | hj
            · exact Or.inr hj
            · have hji : j = i := by simpa using hj
              exact Or.inl (hji ▸ h2)
      · intro j
        simp [List.mem_append, h.newDeps_iff j]
      · simp [List.nodup_append, h.nodup_new, h1]
    · have heq : addDep w ws i store =
          ({ ws with newDeps := ws.newDeps ++ [i], newDepIds := ws.newDepIds ++ [i] },
            addSub store i w) := by
        simp [addDep, h1, h2]
      rw [heq]
      refine ⟨?_, ?_, h.deps_iff, ?_, ?_⟩
      · intro j
        by_cases hj : j = i
        · subst hj
          have hw : w ∉ store j := fun hmem =>
            (h.mem_iff j).mp hmem |>.elim (fun hh => h2 hh) (fun hh => h1 hh)
          simp [addSub, List.count_append, List.count_eq_zero_of_not_mem hw]
        · simpa [addSub, hj] using h.count_le j
      · intro j
        by_cases hj : j = i
        · subst hj
          simp [addSub]
        · simp only [addSub, if_neg hj]
          rw [h.mem_iff j]
          simp [hj]
      · intro j
        simp [List.mem_append, h.newDeps_iff j]
      · simp [List.nodup_append, h.nodup_new, h1]

/-- `cleanupDeps` preserves the bookkeeping invariant. -/
theorem cleanupDeps_WInv {w : Nat} {ws : WDeps} {store : SubStore}
    (h : WInv w ws store) :
    WInv w (cleanupDeps w ws store).1 (cleanupDeps w ws store).2 := by
  rw [cleanupDeps_eq]
  dsimp only
  refine ⟨?_, ?_, ?_, ?_, ?_⟩
  · intro j
    exact le_trans ((pruneFold_sublist w ws.newDepIds ws.deps store j).count_le w)
      (h.count_le j)
  · intro j
    by_cases hj : j ∈ ws.newDepIds
    · rw [pruneFold_mem_newIds w ws.newDepIds ws.deps store hj]
      have : w ∈ store j := (h.mem_iff j).mpr (Or.inr hj)
      simp [this, hj]
    · have hw : w ∉ pruneFold w ws.newDepIds ws.deps store j := by
        by_cases hd : j ∈ ws.deps
        · exact pruneFold_not_mem w ws.newDepIds ws.deps store hd hj (h.count_le j)
        · rw [pruneFold_not_mem_deps w ws.newDepIds ws.deps store hd]
          intro hmem
          rcases (h.mem_iff j).mp hmem with hh | hh
          · exact hd ((h.deps_iff j).mpr hh)
          · exact hj hh
      simp [hw, hj]
  · intro j
    exact h.newDeps_iff j
  · intro j; simp
  · simp

/-- `runOps` preserves the bookkeeping invariant. -/
theorem runOps_WInv (w : Nat) (ops : List WOp) :
    ∀ ws store, WInv w ws store →
      WInv w (runOps w ops (ws, store)).1 (runOps w ops (ws, store)).2 := by
  induction ops with
  | nil => intro ws store h; simpa [runOps] using h
  | cons op ops ih =>
    intro ws store h
    cases op with
    | read i =>
      have h' := addDep_WInv i h
      simpa [runOps] using ih _ _ h'
    | cleanup =>
      have h' := cleanupDeps_WInv h
      simpa [runOps] using ih _ _ h'

/-- C3: within one evaluation `addDep` is a no-op on a Dep id already in the
current-cycle set, records a fresh id exactly once, and calls
`dep.addSub(this)` only when the id is absent from both the current- and the
previous-cycle sets; consequently, starting from a fresh watcher, any
sequence of reads and evaluation cleanups leaves the watcher subscribed at
most once to every Dep, with a duplicate-free current-cycle set. -/
theorem C3_addDep_no_duplicates (w i : Nat) (ws : WDeps) (store : SubStore) :
    (i ∈ ws.newDepIds → addDep w ws i store = (ws, store)) ∧
    (i ∉ ws.newDepIds →
      (addDep w ws i store).1.newDepIds = ws.newDepIds ++ [i] ∧
      (addDep w ws i store).1.newDeps = ws.newDeps ++ [i]) ∧
    (i ∉ ws.newDepIds → i ∈ ws.depIds → (addDep w ws i store).2 = store) ∧
    (i ∉ ws.newDepIds → i ∉ ws.depIds → (addDep w ws i store).2 = addSub store i w) ∧
    (∀ ops store₀, (∀ j, w ∉ store₀ j) →
      (∀ j, ((runOps w ops (WDeps.init, store₀)).2 j).count w ≤ 1) ∧
      (runOps w ops (WDeps.init, store₀)).1.newDepIds.Nodup) := by
  refine ⟨?_, ?_, ?_, ?_, ?_⟩
  · intro h1; simp [addDep, h1]
  · intro h1; constructor <;> by_cases h2 : i ∈ ws.depIds <;> simp [addDep, h1, h2]
  · intro h1 h2; simp [addDep, h1, h2]
  · intro h1 h2; simp [addDep, h1, h2]
  · intro ops store₀ h0
    have h := runOps_WInv w ops WDeps.init store₀ (WInv.start w store₀ h0)
    exact ⟨h.count_le, h.nodup_new⟩

/-- Witness for C3: concrete runs of `addDep` on ids already or not yet
tracked, and a concrete read/cleanup history that leaves watcher 5
subscribed at most once everywhere. -/
theorem C3_addDep_no_duplicates_witness :
    (addDep 5 ⟨[], [], [3], [3]⟩ 3 (fun _ => []) = (⟨[], [], [3], [3]⟩, fun _ => [])) ∧
    (addDep 5 ⟨[], [], [], []⟩ 2 (fun _ => [])).1.newDepIds = [2] ∧
    (addDep 5 ⟨[2], [2], [], []⟩ 2 (fun j => if j = 2 then [5] else [])).2 =
      (fun j => if j = 2 then [5] else []) ∧
    (∀ j, ((runOps 5 [.read 1, .read 1, .read 2, .cleanup, .read 2]
        (WDeps.init, fun _ => [])).2 j).count 5 ≤ 1) :=
  ⟨(C3_addDep_no_duplicates 5 3 ⟨[], [], [3], [3]⟩ (fun _ => [])).1 (by decide),
   ((C3_addDep_no_duplicates 5 2 ⟨[], [], [], []⟩ (fun _ => [])).2.1 (by decide)).1,
   (C3_addDep_no_duplicates 5 2 ⟨[2], [2], [], []⟩
      (fun j => if j = 2 then [5] else [])).2.2.1 (by decide) (by decide),
   ((C3_addDep_no_duplicates 5 0 WDeps.init (fun _ => [])).2.2.2.2
      [.read 1, .read 1, .read 2, .cleanup, .read 2] (fun _ => [])
      (by intro j; simp)).1⟩

/-! ## Array interception (src/unnamed/part_001)

The seven patched `Array.prototype` methods.  The original (native) methods
are modelled on `List`: `push`/`pop`/`shift`/`unshift`/`splice`/`reverse`
concretely, and `sort` — whose reordering is native and never inspected by
the interception — as an arbitrary reordering function parameter.  `splice`
with fewer than two arguments keeps its delete-to-end semantics via an
optional delete count. -/

/-- An invocation of one of the seven intercepted mutating methods. -/
inductive MethodCall (α : Type) where
  | push (args : List α)
  | pop
  | shift
  | unshift (args : List α)
  | splice (start : Int) (deleteCount : Option Int) (items : List α)
  | sort
  | reverse
deriving Repr

/-- The value returned by the original method: a new length, an extracted
element, the removed slice, or the array itself. -/
inductive MethodResult (α : Type) where
  | len (n : Nat)
  | elem (x : Option α)
  | removed (xs : List α)
  | same (xs : List α)
deriving Repr

/-- JavaScript `splice` start-index normalization: negative indices count
from the end (clamped at 0), large ones are clamped to the length. -/
def jsSpliceStart (len : Nat) (start : Int) : Nat :=
  if start < 0 then ((len : Int) + start).toNat else min start.toNat len

/-- JavaScript `splice` delete-count normalization: omitted means
delete-to-end, otherwise clamp into `[0, len - start]`. -/
def jsSpliceDeleteCount (len s : Nat) (dc : Option Int) : Nat :=
  match dc with
  | none => len - s
  | some d => min d.toNat (len - s)

/-- The original `Array.prototype` operation: post-mutation contents and
returned value. -/
def applyOriginal {α : Type} (sortFn : List α → List α) (arr : List α) :
    MethodCall α → List α × MethodResult α
  | .push args => (arr ++ args, .len (arr.length + args.length))
  | .pop => (arr.dropLast, .elem arr.getLast?)
  | .shift => (arr.tail, .elem arr.head?)
  | .unshift args => (args ++ arr, .len (args.length + arr.length))
  | .splice start dc items =>
    let s := jsSpliceStart arr.length start
    let k := jsSpliceDeleteCount arr.length s dc
    (arr.take s ++ items ++ arr.drop (s + k), .removed ((arr.drop s).take k))
  | .sort => (sortFn arr, .same (sortFn arr))
  | .reverse => (arr.reverse, .same arr.reverse)

/-- The `switch (method)` of the mutator: which arguments are newly inserted
elements (`args` for push/unshift, `args.slice(2)` for splice, none
otherwise). -/
def insertedOf {α : Type} : MethodCall α → Option (List α)
  | .push args => some args
  | .unshift args => some args
  | .splice _ _ items => some items
  | _ => none

/-- Observable events of one intercepted call, in the order they happen:
the original mutation, one `observe` per inserted element
(`ob.observeArray(inserted)`), and the container-level `ob.dep.notify()`
carrying the array contents visible to the notified observers. -/
inductive AEvent (α : Type) where
  | mutate
  | observeElem (x : α)
  | notify (state : List α)
deriving Repr

/-- Result of one intercepted call: post-mutation contents, the value the
wrapped call returns, and the event trace. -/
structure MutOut (α : Type) where
  arr : List α
  result : MethodResult α
  events : List (AEvent α)
deriving Repr

/-- The `mutator` wrapper installed over each patched method
(src/unnamed/part_001 lines 30-53): run the original method first, compute
`inserted`, promote the inserted elements via `observeArray`, then call the
container-level `dep.notify()`. -/
def mutator {α : Type} (sortFn : List α → List α) (arr : List α)
    (c : MethodCall α) : MutOut α :=
  let (arrAfter, result) := applyOriginal sortFn arr c
  let inserted := insertedOf c
  ⟨arrAfter, result,
    [.mutate] ++ (inserted.getD []).map AEvent.observeElem ++ [.notify arrAfter]⟩

/-- C4: for each of the seven intercepted methods the wrapper first performs
the original mutation, then observes exactly the newly inserted elements
(all arguments for push/unshift, the arguments after the first two for
splice, none for pop/shift/sort/reverse), and finally fires the
container-level `notify()`, whose observers see the post-mutation contents. -/
theorem C4_array_mutator_order {α : Type} (sortFn : List α → List α)
    (arr args items : List α) (start : Int) (dc : Option Int) :
    mutator sortFn arr (.push args) =
      ⟨arr ++ args, .len (arr.length + args.length),
        [.mutate] ++ args.map AEvent.observeElem ++ [.notify (arr ++ args)]⟩ ∧
    mutator sortFn arr .pop =
      ⟨arr.dropLast, .elem arr.getLast?, [.mutate, .notify arr.dropLast]⟩ ∧
    mutator sortFn arr .shift =
      ⟨arr.tail, .elem arr.head?, [.mutate, .notify arr.tail]⟩ ∧
    mutator sortFn arr (.unshift args) =
      ⟨args ++ arr, .len (args.length + arr.length),
        [.mutate] ++ args.map AEvent.observeElem ++ [.notify (args ++ arr)]⟩ ∧
    mutator sortFn arr (.splice start dc items) =
      ⟨arr.take (jsSpliceStart arr.length start) ++ items ++
          arr.drop (jsSpliceStart arr.length start +
            jsSpliceDeleteCount arr.length (jsSpliceStart arr.length start) dc),
        .removed ((arr.drop (jsSpliceStart arr.length start)).take
          (jsSpliceDeleteCount arr.length (jsSpliceStart arr.length start) dc)),
        [.mutate] ++ items.map AEvent.observeElem ++
          [.notify (arr.take (jsSpliceStart arr.length start) ++ items ++
            arr.drop (jsSpliceStart arr.length start +
              jsSpliceDeleteCount arr.length (jsSpliceStart arr.length start) dc))]⟩ ∧
    mutator sortFn arr .sort =
      ⟨sortFn arr, .same (sortFn arr), [.mutate, .notify (sortFn arr)]⟩ ∧
    mutator sortFn arr .reverse =
      ⟨arr.reverse, .same arr.reverse, [.mutate, .notify arr.reverse]⟩ :=
  ⟨rfl, rfl, rfl, rfl, rfl, rfl, rfl⟩

/-! ## Watcher.run and error routing (src/core/observer/watcher.js) -/

/-- Result of `Watcher.run()` for a watcher with cached value `value`: the
new cached value and, when the callback fired, its `(newValue, oldValue)`
argument pair. -/
structure RunResult where
  value : JSValue
  fired : Option (JSValue × JSValue)
deriving DecidableEq, Repr

/-- `Watcher.run` (watcher.js lines 249-279), with the re-evaluation
`this.get()` represented by its result `newValue`: when active, the callback
fires and the cache is updated exactly when `value !== this.value`, or the
value is an object/array reference, or the watcher is deep; otherwise
nothing happens.  An inactive watcher does nothing. -/
def watcherRun (active deep : Bool) (cached newValue : JSValue) : RunResult :=
  if active then
    if !strictEq newValue cached || isObject newValue || deep then
      ⟨newValue, some (newValue, cached)⟩
    else
      ⟨cached, none⟩
  else
    ⟨cached, none⟩

/-- C5: an active watcher's `run()` fires the callback with
`(newValue, oldValue)` and caches the new value if and only if the new value
differs (`!==`) from the cached one, or is a non-primitive object/array
reference, or the watcher is in deep mode; in every other case (including an
inactive watcher) the callback does not fire and the cached value is kept. -/
theorem C5_watcher_run_fires (active deep : Bool) (cached newValue : JSValue) :
    ((watcherRun active deep cached newValue).fired.isSome ↔
      (active = true ∧ (strictEq newValue cached = false ∨
        isObject newValue = true ∨ deep = true))) ∧
    ((watcherRun active deep cached newValue).fired.isSome →
      watcherRun active deep cached newValue = ⟨newValue, some (newValue, cached)⟩) ∧
    ((watcherRun active deep cached newValue).fired.isSome = false →
      watcherRun active deep cached newValue = ⟨cached, none⟩) := by
  cases active <;> cases deep <;>
    cases hic : isObject newValue <;> cases hsc : strictEq newValue cached <;>
      simp [watcherRun, hic, hsc]

/-- Witness for C5: an inactive watcher does nothing; an active non-deep
watcher does not fire on an identical primitive, fires on a changed
primitive, and fires on an unchanged object reference. -/
theorem C5_watcher_run_fires_witness :
    watcherRun false false (JSValue.numV 1) (JSValue.numV 2) = ⟨JSValue.numV 1, none⟩ ∧
    watcherRun true false (JSValue.numV 1) (JSValue.numV 1) = ⟨JSValue.numV 1, none⟩ ∧
    watcherRun true false (JSValue.numV 1) (JSValue.numV 2) =
      ⟨JSValue.numV 2, some (JSValue.numV 2, JSValue.numV 1)⟩ ∧
    watcherRun true false (JSValue.refV 0) (JSValue.refV 0) =
      ⟨JSValue.refV 0, some (JSValue.refV 0, JSValue.refV 0)⟩ :=
  ⟨(C5_watcher_run_fires false false (JSValue.numV 1) (JSValue.numV 2)).2.2 (by decide),
   (C5_watcher_run_fires true false (JSValue.numV 1) (JSValue.numV 1)).2.2 (by decide),
   (C5_watcher_run_fires true false (JSValue.numV 1) (JSValue.numV 2)).2.1 (by decide),
   (C5_watcher_run_fires true false (JSValue.refV 0) (JSValue.refV 0)).2.1 (by decide)⟩

/-- Observable outcome of `Watcher.get()` (watcher.js lines 138-170):
`returned` is the value `get` returns when it returns normally (`none` when
the exception propagates), `rethrown`/`handled` record where a thrown
evaluation error went, and `traversed`/`popped`/`cleaned` record the
`finally` block's deep traversal, `popTarget()` and `cleanupDeps()`. -/
structure GetResult (ε : Type) where
  returned : Option JSValue
  rethrown : Option ε
  handled : Option ε
  traversed : Bool
  popped : Bool
  cleaned : Bool
deriving Repr

/-- `Watcher.get` with the computation `this.getter.call(vm, vm)` modelled by
its outcome: a value or a thrown error.  A thrown error goes to
`handleError` for user watchers (leaving the local `value` binding
`undefined`, which `get` then returns) and is rethrown for internally owned
watchers; the `finally` block always traverses when deep, pops the
target stack, and reconciles dependencies. -/
def watcherGet {ε : Type} (user deep : Bool) (comp : Except ε JSValue) :
    GetResult ε :=
  match comp with
  | .ok v => ⟨some v, none, none, deep, true, true⟩
  | .error e =>
    if user then ⟨some JSValue.undefinedV, none, some e, deep, true, true⟩
    else ⟨none, some e, none, deep, true, true⟩

/-- Modelled from the spec: `invokeWithErrorHandling`
(src/core/util/error.js is not among the analysed sources) — a
user-supplied callback's thrown error is "always routed to the diagnostic
channel, never rethrown".  Returns `(handled, rethrown)`. -/
def invokeWithErrorHandling {ε : Type} (res : Except ε Unit) :
    Option ε × Option ε :=
  match res with
  | .ok _ => (none, none)
  | .error e => (some e, none)

/-- The callback dispatch inside `Watcher.run` (watcher.js lines 269-276):
user callbacks go through `invokeWithErrorHandling`, internal callbacks are
invoked directly (`this.cb.call`), so their errors propagate.  Returns
`(handled, rethrown)`. -/
def runCallback {ε : Type} (user : Bool) (cbRes : Except ε Unit) :
    Option ε × Option ε :=
  if user then invokeWithErrorHandling cbRes
  else
    match cbRes with
    | .ok _ => (none, none)
    | .error e => (none, some e)

/-- C6: an error thrown by the computation during `Watcher.get()` is routed
to `handleError` (not rethrown) for a user watcher and rethrown for an
internally owned watcher, and in both cases — and on success — the `finally`
block still pops the target stack and runs `cleanupDeps`; an error thrown by
a user watcher's callback in `run()` is always routed through the
error-handling channel and never rethrown. -/
theorem C6_error_routing {ε : Type} (deep : Bool) (e : ε) (v : JSValue) :
    watcherGet true deep (Except.error e) =
      ⟨some JSValue.undefinedV, none, some e, deep, true, true⟩ ∧
    watcherGet false deep (Except.error e) =
      ⟨none, some e, none, deep, true, true⟩ ∧
    watcherGet (ε := ε) true deep (Except.ok v) = ⟨some v, none, none, deep, true, true⟩ ∧
    watcherGet (ε := ε) false deep (Except.ok v) = ⟨some v, none, none, deep, true, true⟩ ∧
    runCallback true (Except.error e) = (some e, none) ∧
    runCallback (ε := ε) true (Except.ok ()) = (none, none) :=
  ⟨rfl, rfl, rfl, rfl, rfl, rfl⟩

/-! ## nextTick and flushCallbacks (tail of src/core/util/options.js)

A queued callback is modelled by what it can do when invoked: return
normally, throw (caught by the wrapper `nextTick` pushed, which routes the
error to `handleError`), or call `nextTick` again with some callback.  An
entry of the live queue is either such a wrapped callback or the resolver
pushed by a callback-less `nextTick` call. -/

/-- Behaviour of a user callback handed to `nextTick`. -/
inductive Cb where
  | ret
  | throws
  | schedule (c : Cb)
deriving Repr

/-- An entry of the `callbacks` queue: the wrapper around a user callback,
or the `_resolve` invocation pushed by a callback-less `nextTick`. -/
inductive Entry where
  | cb (c : Cb)
  | promise (id : Nat)
deriving Repr

/-- The microtask primitive's global state: the live `callbacks` queue, the
`pending` flag, a counter minting promise identities, the promises resolved
so far (in resolution order), the number of errors routed to `handleError`,
and the number of `timerFunc()` invocations (flushes scheduled). -/
structure NTState where
  callbacks : List Entry
  pending : Bool
  nextPid : Nat
  resolved : List Nat
  handled : Nat
  timerCalls : Nat
deriving Repr

/-- `nextTick(cb?)` (options.js lines 794-825): push the wrapper onto the
queue; if no flush is pending, set `pending` and invoke `timerFunc()`; with
no callback, return a Promise whose resolver the wrapper will invoke.
Returns the new state and the promise id, if one was created. -/
def nextTick (c : Option Cb) (s : NTState) : NTState × Option Nat :=
  match c with
  | some cb =>
    let s1 : NTState := { s with callbacks := s.callbacks ++ [.cb cb] }
    let s2 : NTState :=
      if s1.pending then s1
      else { s1 with pending := true, timerCalls := s1.timerCalls + 1 }
    (s2, none)
  | none =>
    let pid := s.nextPid
    let s1 : NTState :=
      { s with callbacks := s.callbacks ++ [.promise pid], nextPid := pid + 1 }
    let s2 : NTState :=
      if s1.pending then s1
      else { s1 with pending := true, timerCalls := s1.timerCalls + 1 }
    (s2, some pid)

/-- Running one user callback: a throw is caught by the wrapper and routed
to `handleError`; a nested `nextTick` call goes through `nextTick` on the
current (already emptied and un-pended) state. -/
def runCb : Cb → NTState → NTState
  | .ret, s => s
  | .throws, s => { s with handled := s.handled + 1 }
  | .schedule c, s => (nextTick (some c) s).1

/-- Running one snapshotted queue entry. -/
def runEntry (s : NTState) : Entry → NTState
  | .cb c => runCb c s
  | .promise id => { s with resolved := s.resolved ++ [id] }

/-- `flushCallbacks` (options.js lines 701-715): clear `pending`, snapshot
the queue, empty the live queue, then invoke every snapshotted entry in
FIFO order. -/
def flushCallbacks (s : NTState) : NTState :=
  let copies := s.callbacks
  List.foldl runEntry { s with pending := false, callbacks := [] } copies

/-- Running entries never unresolves a promise: `resolved` only grows. -/
theorem runEntry_resolved_extends (s : NTState) (e : Entry) :
    ∃ t, (runEntry s e).resolved = s.resolved ++ t := by
  cases e with
  | promise id => exact ⟨[id], rfl⟩
  | cb c =>
    cases c with
    | ret => exact ⟨[], by simp [runEntry, runCb]⟩
    | throws => exact ⟨[], by simp [runEntry, runCb]⟩
    | schedule c' =>
      refine ⟨[], ?_⟩
      simp only [runEntry, runCb, nextTick]
      split <;> simp

theorem foldl_runEntry_resolved_extends (es : List Entry) (s : NTState) :
    ∃ t, (List.foldl runEntry s es).resolved = s.resolved ++ t := by
  induction es generalizing s with
  | nil => exact ⟨[], by simp⟩
  | cons e es ih =>
    obtain ⟨t1, h1⟩ := runEntry_resolved_extends s e
    obtain ⟨t2, h2⟩ := ih (runEntry s e)
    exact ⟨t1 ++ t2, by simp [h2, h1]⟩

/-- A promise entry anywhere in the snapshot is resolved by the drain. -/
theorem resolved_of_promise_mem (pid : Nat) (es : List Entry) :
    ∀ (s : NTState),
      ((∃ pre post, es = pre ++ Entry.promise pid :: post) ∨ pid ∈ s.resolved) →
      pid ∈ (List.foldl runEntry s es).resolved := by
  induction es with
  | nil =>
    rintro s (⟨pre, post, h⟩ | h)
    · exact absurd h (by simp)
    · simpa using h
  | cons e es ih =>
    rintro s (⟨pre, post, h⟩ | h)
    · cases pre with
      | nil =>
        simp only [List.nil_append, List.cons.injEq] at h
        obtain ⟨rfl, rfl⟩ := h
        refine ih _ (Or.inr ?_)
        simp [runEntry]
      | cons p pre =>
        simp only [List.cons_append, List.cons.injEq] at h
        obtain ⟨rfl, h⟩ := h
        exact ih _ (Or.inl ⟨pre, post, h⟩)
    · refine ih _ (Or.inr ?_)
      obtain ⟨t, ht⟩ := runEntry_resolved_extends s e
      simp [ht, h]

/-- C8: `flushCallbacks` clears `pending` and empties the live queue before
invoking the snapshot, so a callback that calls `nextTick` during the drain
lands in a fresh queue and schedules a new flush (`timerFunc` fires again)
instead of being drained re-entrantly; one callback's thrown error is
handled without stopping the remaining snapshotted entries (shown on a
queue where the error sits between two other entries, which still run in
FIFO order); and `nextTick` with no callback returns a promise that is
resolved once the queue drains past it. -/
theorem C8_nextTick_flush (s : NTState) (c : Cb) (p1 p2 : Nat) :
    (flushCallbacks { s with callbacks := [.cb (.schedule c)] } =
      { s with callbacks := [.cb c], pending := true,
               timerCalls := s.timerCalls + 1 }) ∧
    (flushCallbacks { s with callbacks := [.promise p1, .cb .throws, .promise p2] } =
      { s with callbacks := [], pending := false,
               resolved := s.resolved ++ [p1] ++ [p2],
               handled := s.handled + 1 }) ∧
    ((nextTick none s).2 = some s.nextPid ∧
      s.nextPid ∈ (flushCallbacks (nextTick none s).1).resolved) := by
  refine ⟨?_, ?_, ?_, ?_⟩
  · simp [flushCallbacks, runEntry, runCb, nextTick]
  · simp [flushCallbacks, runEntry, runCb]
  · simp [nextTick]
  · have hq : (nextTick none s).1.callbacks = s.callbacks ++ [Entry.promise s.nextPid] := by
      simp only [nextTick]
      split <;> simp
    show s.nextPid ∈
      (List.foldl runEntry _ (nextTick none s).1.callbacks).resolved
    rw [hq]
    exact resolved_of_promise_mem s.nextPid _ _ (Or.inl ⟨s.callbacks, [], rfl⟩)

/-- C9: when `defineReactive` wraps a field that already had an accessor
pair, the installed getter obtains its value from the pre-existing getter
(`const value = getter ? getter.call(obj) : val`); and when the field had a
getter but no setter, every write through the installed setter is a
no-op — the underlying object state and the closure value are unchanged, no
nested wrapper is re-derived, and the field Dep's `notify()` never runs —
for every possible old getter, object state and written value. -/
theorem C9_accessor_delegation {S : Type} (oldGet : S → JSValue)
    (oldSet : S → JSValue → S) (s : S) (val newVal : JSValue) (hasTarget : Bool) :
    (reactiveGetter (some oldGet) s val hasTarget = (oldGet s, hasTarget)) ∧
    (reactiveSetter (some oldGet) none s val newVal = ⟨s, val, 0, false⟩) ∧
    (strictEq newVal (oldGet s) = false → strictEq newVal newVal = true →
      reactiveSetter (some oldGet) (some oldSet) s val newVal =
        ⟨oldSet s newVal, val, 1, true⟩) := by
  refine ⟨rfl, ?_, ?_⟩
  · show (if strictEq newVal (oldGet s) ||
        (!strictEq newVal newVal && !strictEq (oldGet s) (oldGet s)) then
        (⟨s, val, 0, false⟩ : SetterResult S)
      else if (some oldGet).isSome && (none : Option (S → JSValue → S)).isNone then
        ⟨s, val, 0, false⟩
      else _) = ⟨s, val, 0, false⟩
    split
    · rfl
    · rfl
  · intro h1 h2
    simp [reactiveSetter, h1, h2]

/-- Witness for C9's conditional part: through a delegating accessor pair a
changed write goes to the old setter and notifies once (here the underlying
state is the value itself). -/
theorem C9_accessor_delegation_witness :
    reactiveGetter (some (fun s : JSValue => s)) (JSValue.numV 3) JSValue.undefinedV true =
      (JSValue.numV 3, true) ∧
    reactiveSetter (some (fun s : JSValue => s)) none (JSValue.numV 3)
      JSValue.undefinedV (JSValue.numV 4) = ⟨JSValue.numV 3, JSValue.undefinedV, 0, false⟩ ∧
    reactiveSetter (some (fun s : JSValue => s)) (some (fun _ v => v)) (JSValue.numV 3)
      JSValue.undefinedV (JSValue.numV 4) = ⟨JSValue.numV 4, JSValue.undefinedV, 1, true⟩ :=
  ⟨(C9_accessor_delegation (fun s : JSValue => s) (fun _ v => v) (JSValue.numV 3)
      JSValue.undefinedV (JSValue.numV 4) true).1,
   (C9_accessor_delegation (fun s : JSValue => s) (fun _ v => v) (JSValue.numV 3)
      JSValue.undefinedV (JSValue.numV 4) true).2.1,
   (C9_accessor_delegation (fun s : JSValue => s) (fun _ v => v) (JSValue.numV 3)
      JSValue.undefinedV (JSValue.numV 4) true).2.2 (by decide) (by decide)⟩

/-! ## set and del (src/unnamed/part_002 lines 260-321)

Targets of the structural mutation API.  `undef` stands for `undefined` or
`null`, `prim` for a primitive (string/number/symbol/boolean; modelled
without own properties), and arrays/objects carry their contents, the
`_isVue` marker (objects) and their `__ob__` wrapper when observed.
Keys of `Object.prototype` are modelled as absent (the `!(key in
Object.prototype)` conjunct is always true for the data keys modelled
here), and non-index own properties of arrays are not modelled — the slow
path on an array target leaves the element list unchanged. -/

/-- The `__ob__` wrapper data `set`/`del` consult: the count of vms using
the container as root `$data`. -/
structure ObInfo where
  vmCount : Nat
deriving DecidableEq, Repr

/-- A property key: a (numeric, integral) index or a string field name. -/
inductive VKey where
  | idx (n : Int)
  | field (s : String)
deriving DecidableEq, Repr

/-- A `set`/`del` target. -/
inductive Tgt where
  | undef
  | prim
  | arr (elems : List JSValue) (ob : Option ObInfo)
  | obj (fields : List (VKey × JSValue)) (isVue : Bool) (ob : Option ObInfo)
deriving DecidableEq, Repr

/-- The dev-mode `isUndef(target) || isPrimitive(target)` diagnostic guard
at the top of both `set` and `del`. -/
def isInvalidTarget : Tgt → Bool
  | .undef => true
  | .prim => true
  | _ => false

/-- Modelled from the spec: `isValidArrayIndex` (shared/util is not among
the analysed sources) — a key is a valid array index when it is a
non-negative integer (the source additionally parses numeric strings and
requires finiteness; integral numeric keys cover the modelled key space). -/
def isValidArrayIndex : VKey → Bool
  | .idx n => decide (0 ≤ n)
  | .field _ => false

/-- The JavaScript `key in target` test: throws a TypeError (`none`) on
`undefined`/`null` and on primitives, otherwise reports own-property
membership (array indices in range; object fields present). -/
def keyIn : Tgt → VKey → Option Bool
  | .undef, _ => none
  | .prim, _ => none
  | .arr elems _, .idx n => some (decide (0 ≤ n ∧ n < (elems.length : Int)))
  | .arr _ _, .field _ => some false
  | .obj fields _ _, k => some (fields.any (fun p => p.1 == k))

/-- `target.__ob__`: property access throws (`none`) on `undefined`/`null`,
boxes primitives (no wrapper), and reads the wrapper otherwise. -/
def obAccess : Tgt → Option (Option ObInfo)
  | .undef => none
  | .prim => some none
  | .arr _ ob => some ob
  | .obj _ _ ob => some ob

/-- `target._isVue`. -/
def isVueTgt : Tgt → Bool
  | .obj _ isVue _ => isVue
  | _ => false

/-- `ob && ob.vmCount`. -/
def vmCountPos : Tgt → Bool
  | .arr _ (some ob) => decide (0 < ob.vmCount)
  | .obj _ _ (some ob) => decide (0 < ob.vmCount)
  | _ => false

/-- Whether the target carries an `__ob__` wrapper. -/
def hasOb : Tgt → Bool
  | .arr _ (some _) => true
  | .obj _ _ (some _) => true
  | _ => false

/-- `hasOwn(target, key)`. -/
def hasOwnTgt : Tgt → VKey → Bool
  | .arr elems _, .idx n => decide (0 ≤ n ∧ n < (elems.length : Int))
  | .obj fields _ _, k => fields.any (fun p => p.1 == k)
  | _, _ => false

/-- Plain assignment `target[key] = val` to an existing key. -/
def assignExisting : Tgt → VKey → JSValue → Tgt
  | .arr elems ob, .idx n, v => .arr (elems.set n.toNat v) ob
  | .obj fields isVue ob, k, v =>
    .obj (fields.map (fun p => if p.1 = k then (k, v) else p)) isVue ob
  | t, _, _ => t

/-- Adding a brand new key (`target[key] = val` on a plain container, or
`defineReactive(ob.value, key, val)` on an observed one). -/
def addKey : Tgt → VKey → JSValue → Tgt
  | .obj fields isVue ob, k, v => .obj (fields ++ [(k, v)]) isVue ob
  | t, _, _ => t

/-- `delete target[key]`. -/
def removeKey : Tgt → VKey → Tgt
  | .obj fields isVue ob, k => .obj (fields.filter (fun p => p.1 != k)) isVue ob
  | t, _ => t

/-- Number of container-level `notify()` events in a mutator trace. -/
def notifyCount {α : Type} (events : List (AEvent α)) : Nat :=
  (events.filter (fun e => match e with
    | .notify _ => true
    | _ => false)).length

/-- Observable outcome of `set` or `del`: the resulting target, the
invalid-target diagnostic, the Vue-instance/root-`$data` diagnostic, whether
a TypeError was thrown, how many container-level `notify()` calls fired,
and whether a new reactive key was installed via `defineReactive`. -/
structure SetDelOut where
  target : Tgt
  warned : Bool
  warnedRoot : Bool
  threw : Bool
  notifies : Nat
  addedReactiveKey : Bool
deriving DecidableEq, Repr

/-- The part of `set` after the array fast path (part_002 lines 271-289):
`key in target` (which throws on invalid targets), plain assignment for
existing keys, the Vue-instance/root-`$data` refusal, plain addition on an
unobserved container, and `defineReactive` plus container `notify()` on an
observed one. -/
def vueSetSlow (target : Tgt) (key : VKey) (val : JSValue) (warned : Bool) :
    SetDelOut :=
  match keyIn target key with
  | none => ⟨target, warned, false, true, 0, false⟩
  | some true => ⟨assignExisting target key val, warned, false, false, 0, false⟩
  | some false =>
    if isVueTgt target || vmCountPos target then
      ⟨target, warned, true, false, 0, false⟩
    else if hasOb target then
      ⟨addKey target key val, warned, false, false, 1, true⟩
    else
      ⟨addKey target key val, warned, false, false, 0, false⟩

/-- `set(target, key, val)` (part_002 lines 260-290).  The dev-mode warning
fires for `undefined`/`null`/primitive targets but execution continues.
For an array with a valid index the length is first raised to
`max(target.length, key)` (new slots read as `undefined`) and the mutation
is `target.splice(key, 1, val)` — the intercepted `mutator` splice when the
array is observed, the native splice otherwise. -/
def vueSet (target : Tgt) (key : VKey) (val : JSValue) : SetDelOut :=
  let warned := isInvalidTarget target
  match target, key with
  | .arr elems ob, .idx n =>
    if isValidArrayIndex (.idx n) then
      let padded := elems ++
        List.replicate (max elems.length n.toNat - elems.length) JSValue.undefinedV
      match ob with
      | some _ =>
        let m := mutator id padded (.splice n (some 1) [val])
        ⟨.arr m.arr ob, warned, false, false, notifyCount m.events, false⟩
      | none =>
        ⟨.arr (applyOriginal id padded (.splice n (some 1) [val])).1 ob,
          warned, false, false, 0, false⟩
    else
      vueSetSlow (.arr elems ob) (.idx n) val warned
  | t, k => vueSetSlow t k val (isInvalidTarget t)

/-- `del(target, key)` (part_002 lines 295-321).  The dev-mode warning
fires for invalid targets but execution continues; array targets with a
valid index go through `target.splice(key, 1)`; otherwise `target.__ob__`
is read (throwing on `undefined`/`null`), the Vue-instance/root-`$data`
refusal applies, a missing own key is a silent no-op, and a real deletion
notifies the container-level Dep when the target is observed. -/
def vueDel (target : Tgt) (key : VKey) : SetDelOut :=
  let warned := isInvalidTarget target
  match target, key with
  | .arr elems ob, .idx n =>
    if isValidArrayIndex (.idx n) then
      match ob with
      | some _ =>
        let m := mutator id elems (.splice n (some 1) [])
        ⟨.arr m.arr ob, warned, false, false, notifyCount m.events, false⟩
      | none =>
        ⟨.arr (applyOriginal id elems (.splice n (some 1) [])).1 ob,
          warned, false, false, 0, false⟩
    else
      vueDelSlow (.arr elems ob) (.idx n) warned
  | t, k => vueDelSlow t k (isInvalidTarget t)
where
  vueDelSlow (target : Tgt) (key : VKey) (warned : Bool) : SetDelOut :=
    match obAccess target with
    | none => ⟨target, warned, false, true, 0, false⟩
    | some obOpt =>
      if isVueTgt target || vmCountPos target then
        ⟨target, warned, true, false, 0, false⟩
      else if !hasOwnTgt target key then
        ⟨target, warned, false, false, 0, false⟩
      else
        match obOpt with
        | some _ => ⟨removeKey target key, warned, false, false, 1, false⟩
        | none => ⟨removeKey target key, warned, false, false, 0, false⟩

/-- The element list of an array target. -/
def tgtElems : Tgt → List JSValue
  | .arr elems _ => elems
  | _ => []

/-- C7 counterexample: `set` on a primitive target and `del` on an
`undefined`/`null` target do not refuse silently — after the diagnostic the
source keeps executing and the `key in target` test (respectively the
`target.__ob__` access) throws a TypeError, contradicting the claimed
silent no-op. -/
theorem C7_set_del_counterexample :
    (vueSet Tgt.prim (.field "a") (JSValue.numV 1)).threw = true ∧
    (vueDel Tgt.undef (.field "a")).threw = true := by
  constructor <;> rfl

/-- C7 amended: `set` and `del` emit a diagnostic on `undefined`/`null` or
primitive targets but do not return early: `set` then throws a TypeError at
`key in target` (as does `del` at `target.__ob__` for `undefined`/`null`),
while `del` on a primitive completes as a no-op; for a Vue instance or a
container with `vmCount > 0` (and, for `set`, a key not already present)
both refuse silently with only the root-data diagnostic; and for an
observed array target with a valid index `set` routes the mutation through
the intercepted `splice`, so the container-level notification fires exactly
once and the element lands at the index. -/
theorem C7_set_del_amended (k : VKey) (v : JSValue)
    (fields : List (VKey × JSValue)) (ob : Option ObInfo) (obi : ObInfo)
    (elems : List JSValue) (n : Int) :
    (vueSet Tgt.undef k v = ⟨Tgt.undef, true, false, true, 0, false⟩) ∧
    (vueSet Tgt.prim k v = ⟨Tgt.prim, true, false, true, 0, false⟩) ∧
    (vueDel Tgt.undef k = ⟨Tgt.undef, true, false, true, 0, false⟩) ∧
    (vueDel Tgt.prim k = ⟨Tgt.prim, true, false, false, 0, false⟩) ∧
    (keyIn (.obj fields true ob) k = some false →
      vueSet (.obj fields true ob) k v =
        ⟨.obj fields true ob, false, true, false, 0, false⟩) ∧
    (keyIn (.obj fields false (some obi)) k = some false → 0 < obi.vmCount →
      vueSet (.obj fields false (some obi)) k v =
        ⟨.obj fields false (some obi), false, true, false, 0, false⟩) ∧
    (vueDel (.obj fields true ob) k =
      ⟨.obj fields true ob, false, true, false, 0, false⟩) ∧
    (0 < obi.vmCount →
      vueDel (.obj fields false (some obi)) k =
        ⟨.obj fields false (some obi), false, true, false, 0, false⟩) ∧
    (0 ≤ n →
      vueSet (.arr elems (some obi)) (.idx n) v =
        ⟨.arr (mutator id
            (elems ++ List.replicate (max elems.length n.toNat - elems.length)
              JSValue.undefinedV)
            (.splice n (some 1) [v])).arr (some obi),
          false, false, false, 1, false⟩ ∧
      (tgtElems (vueSet (.arr elems (some obi)) (.idx n) v).target)[n.toNat]? =
        some v) := by
  refine ⟨?_, ?_, ?_, ?_, ?_, ?_, ?_, ?_, ?_⟩
  · cases k <;> rfl
  · cases k <;> rfl
  · cases k <;> rfl
  · cases k <;> rfl
  · intro hk
    cases k <;> simp [vueSet, vueSetSlow, hk, isVueTgt, isInvalidTarget]
  · intro hk hvm
    cases k <;>
      simp [vueSet, vueSetSlow, hk, isVueTgt, vmCountPos, hvm, isInvalidTarget]
  · cases k <;> simp [vueDel, vueDel.vueDelSlow, obAccess, isVueTgt, isInvalidTarget]
  · intro hvm
    cases k <;>
      simp [vueDel, vueDel.vueDelSlow, obAccess, isVueTgt, vmCountPos, hvm,
        isInvalidTarget]
  · intro hn
    have hvalid : isValidArrayIndex (.idx n) = true := by
      simp [isValidArrayIndex, hn]
    have heq : vueSet (.arr elems (some obi)) (.idx n) v =
        ⟨.arr (mutator id
            (elems ++ List.replicate (max elems.length n.toNat - elems.length)
              JSValue.undefinedV)
            (.splice n (some 1) [v])).arr (some obi),
          false, false, false, 1, false⟩ := by
      simp [vueSet, hvalid, isInvalidTarget, notifyCount, mutator]
    refine ⟨heq, ?_⟩
    rw [heq]
    set padded := elems ++
      List.replicate (max elems.length n.toNat - elems.length) JSValue.undefinedV with hpad
    have hplen : padded.length = max elems.length n.toNat := by
      simp [hpad]
    have hs : jsSpliceStart padded.length n = n.toNat := by
      rw [hplen]
      simp [jsSpliceStart, Int.not_lt.mpr hn]
    have htake : (padded.take (jsSpliceStart padded.length n)).length = n.toNat := by
      rw [hs]
      simp [hplen]
    show ((padded.take (jsSpliceStart padded.length n) ++ [v] ++
        padded.drop (jsSpliceStart padded.length n +
          jsSpliceDeleteCount padded.length (jsSpliceStart padded.length n)
            (some 1))))[n.toNat]? = some v
    rw [List.getElem?_append, List.getElem?_append]
    simp [htake]

/-- Witness for C7's conditional parts: a Vue instance and a root-`$data`
container refuse a fresh key with only the root diagnostic, and setting
index 1 of an observed two-element array replaces the element and notifies
once. -/
theorem C7_set_del_amended_witness :
    vueSet (.obj [(.field "a", JSValue.numV 1)] true none) (.field "b") (JSValue.numV 2) =
      ⟨.obj [(.field "a", JSValue.numV 1)] true none, false, true, false, 0, false⟩ ∧
    vueSet (.obj [] false (some ⟨1⟩)) (.field "b") (JSValue.numV 2) =
      ⟨.obj [] false (some ⟨1⟩), false, true, false, 0, false⟩ ∧
    vueDel (.obj [] false (some ⟨1⟩)) (.field "b") =
      ⟨.obj [] false (some ⟨1⟩), false, true, false, 0, false⟩ ∧
    (vueSet (.arr [JSValue.numV 9, JSValue.numV 8] (some ⟨0⟩)) (.idx 1)
        (JSValue.numV 7)).notifies = 1 ∧
    (tgtElems (vueSet (.arr [JSValue.numV 9, JSValue.numV 8] (some ⟨0⟩)) (.idx 1)
        (JSValue.numV 7)).target)[(1 : Int).toNat]? = some (JSValue.numV 7) :=
  ⟨(C7_set_del_amended (.field "b") (JSValue.numV 2) [(.field "a", JSValue.numV 1)]
      none ⟨1⟩ [] 0).2.2.2.2.1 (by decide),
   (C7_set_del_amended (.field "b") (JSValue.numV 2) [] none ⟨1⟩ [] 0).2.2.2.2.2.1
      (by decide) (by decide),
   (C7_set_del_amended (.field "b") (JSValue.numV 2) [] none ⟨1⟩ [] 0).2.2.2.2.2.2.2.1
      (by decide),
   by
    have h := ((C7_set_del_amended (.field "b") (JSValue.numV 7) [] none ⟨0⟩
        [JSValue.numV 9, JSValue.numV 8] 1).2.2.2.2.2.2.2.2 (by decide)).1
    rw [h],
   ((C7_set_del_amended (.field "b") (JSValue.numV 7) [] none ⟨0⟩
      [JSValue.numV 9, JSValue.numV 8] 1).2.2.2.2.2.2.2.2 (by decide)).2⟩

/-! ## traverse (src/core/observer/traverse.js)

The object graph a deep watcher value spans: a value is a non-object or a
reference into a finite heap of containers.  A container records the
`Object.isFrozen` and `instanceof VNode` guards, its `__ob__`'s Dep id when
observed, and its children (array items or field values).  `_traverse` is
not structurally recursive on cyclic heaps, so the embedding is
fuel-indexed: `none` means the recursion did not complete within the given
fuel, and divergence is "no fuel suffices". -/

/-- A traversed value: a non-object, or a reference into the heap. -/
inductive TVal where
  | prim
  | ref (r : Nat)
deriving DecidableEq, Repr

/-- A container in the traversed graph. -/
structure TNode where
  frozen : Bool
  isVNode : Bool
  ob : Option Nat
  children : List TVal
deriving DecidableEq, Repr

/-- A finite heap of containers, keyed by reference. -/
abbrev THeap := List (Nat × TNode)

def lookupNode (heap : THeap) (r : Nat) : Option TNode :=
  (heap.find? (fun p => p.1 == r)).map (fun p => p.2)

/-- Sequential traversal of a child list, threading the seen-set and
propagating fuel exhaustion. -/
def tlistWith (f : TVal → List Nat → Option (List Nat)) :
    List TVal → List Nat → Option (List Nat)
  | [], seen => some seen
  | v :: vs, seen => (f v seen).bind (fun s => tlistWith f vs s)

/-- The body of `_traverse` once the value resolved to a container (or a
dangling reference): the frozen/VNode guard, the seen-set guard for
observed containers, and the recursion over the children. -/
def tvisitBody (recurse : TVal → List Nat → Option (List Nat)) :
    Option TNode → List Nat → Option (List Nat)
  | none, seen => some seen
  | some node, seen =>
    if node.frozen || node.isVNode then some seen
    else
      match node.ob with
      | some d =>
        if d ∈ seen then some seen
        else tlistWith recurse node.children.reverse (d :: seen)
      | none => tlistWith recurse node.children.reverse seen

/-- `_traverse(val, seen)` (traverse.js lines 19-56) with fuel: return at
once on non-objects (and dangling references, which cannot arise in the
source), on frozen values and VNodes; for an observed container whose Dep
id is already in the seen-set return, otherwise record the id; then recurse
into the children back to front (`while (i--)`), each level consuming one
unit of fuel.  `none` means the fuel ran out before the recursion
completed. -/
def tvisit (heap : THeap) : Nat → TVal → List Nat → Option (List Nat)
  | _, .prim, seen => some seen
  | 0, .ref _, _ => none
  | fuel + 1, .ref r, seen =>
    tvisitBody (tvisit heap fuel) (lookupNode heap r) seen

theorem tvisit_ref_succ (heap : THeap) (fuel : Nat) (r : Nat) (seen : List Nat) :
    tvisit heap (fuel + 1) (.ref r) seen =
      tvisitBody (tvisit heap fuel) (lookupNode heap r) seen := rfl

/-- `traverse(val)` (traverse.js lines 14-17): run `_traverse` on the shared
`seenObjects` set, then clear it.  Returns the `_traverse` outcome and the
global set afterwards. -/
def traverse (heap : THeap) (fuel : Nat) (v : TVal) (seenObjects : List Nat) :
    Option (List Nat) × List Nat :=
  (tvisit heap fuel v seenObjects, [])

/-- All Dep ids of observed containers in the heap. -/
def heapDeps (heap : THeap) : List Nat :=
  heap.filterMap (fun p => p.2.ob)

/-- The observed Dep ids the traversal has not seen yet. -/
def unseenDeps (heap : THeap) (seen : List Nat) : List Nat :=
  (heapDeps heap).filter (fun d => decide (d ∉ seen))

theorem length_filter_mono {α : Type} (p q : α → Bool)
    (h : ∀ x, q x = true → p x = true) (l : List α) :
    (l.filter q).length ≤ (l.filter p).length := by
  induction l with
  | nil => simp
  | cons a t ih =>
    rw [List.filter_cons, List.filter_cons]
    by_cases hq : q a = true
    · rw [if_pos hq, if_pos (h a hq)]
      simpa using ih
    · rw [if_neg hq]
      by_cases hp : p a = true
      · rw [if_pos hp]
        exact le_trans ih (Nat.le_succ _)
      · rw [if_neg hp]
        exact ih

theorem unseenDeps_mono (heap : THeap) {s1 s2 : List Nat}
    (h : ∀ x, x ∈ s1 → x ∈ s2) :
    (unseenDeps heap s2).length ≤ (unseenDeps heap s1).length := by
  refine length_filter_mono _ _ ?_ (heapDeps heap)
  intro x hx
  simp only [decide_eq_true_eq] at hx ⊢
  exact fun hmem => hx (h x hmem)

theorem filter_unseen_cons_lt (d : Nat) (seen : List Nat) (hs : d ∉ seen) :
    ∀ l : List Nat, d ∈ l →
      (l.filter (fun x => decide (x ∉ d :: seen))).length <
      (l.filter (fun x => decide (x ∉ seen))).length := by
  intro l
  induction l with
  | nil => intro h; cases h
  | cons a t ih =>
    intro hd
    have himp : ∀ x : Nat, decide (x ∉ d :: seen) = true → decide (x ∉ seen) = true := by
      intro x hx
      simp only [decide_eq_true_eq] at hx ⊢
      exact fun hmem => hx (List.mem_cons_of_mem _ hmem)
    rw [List.filter_cons, List.filter_cons]
    by_cases ha : a = d
    · subst ha
      have h1 : decide (a ∉ a :: seen) = false := by simp
      have h2 : decide (a ∉ seen) = true := by simpa using hs
      rw [h1, h2]
      simp only [Bool.false_eq_true, if_false, if_true, List.length_cons]
      exact Nat.lt_succ_of_le (length_filter_mono _ _ himp t)
    · have hdt : d ∈ t := by
        rcases List.mem_cons.mp hd with h | h
        · exact absurd h.symm ha
        · exact h
      have hagree : decide (a ∉ d :: seen) = decide (a ∉ seen) := by
        simp [List.mem_cons, ha]
      rw [hagree]
      by_cases hcase : decide (a ∉ seen) = true
      · rw [if_pos hcase, if_pos hcase]
        simpa using ih hdt
      · rw [if_neg hcase, if_neg hcase]
        exact ih hdt

theorem unseenDeps_cons_lt (heap : THeap) {d : Nat} {seen : List Nat}
    (hd : d ∈ heapDeps heap) (hs : d ∉ seen) :
    (unseenDeps heap (d :: seen)).length < (unseenDeps heap seen).length := by
  unfold unseenDeps
  exact filter_unseen_cons_lt d seen hs (heapDeps heap) hd

/-- The seen-set only grows along a completed traversal. -/
theorem tvisit_seen_mono (heap : THeap) :
    ∀ fuel v seen s2, tvisit heap fuel v seen = some s2 → ∀ x, x ∈ seen → x ∈ s2 := by
  intro fuel
  induction fuel with
  | zero =>
    intro v seen s2 h
    cases v with
    | prim => cases h; exact fun x hx => hx
    | ref r => exact absurd h (by simp [tvisit])
  | succ fuel ih =>
    have hlist : ∀ l seen s2, tlistWith (tvisit heap fuel) l seen = some s2 →
        ∀ x, x ∈ seen → x ∈ s2 := by
      intro l
      induction l with
      | nil => intro seen s2 h; cases h; exact fun x hx => hx
      | cons v vs ihl =>
        intro seen s2 h
        simp only [tlistWith] at h
        cases hv : tvisit heap fuel v seen with
        | none => rw [hv] at h; cases h
        | some s1 =>
          rw [hv] at h
          simp only [Option.some_bind] at h
          exact fun x hx => ihl s1 s2 h x (ih v seen s1 hv x hx)
    intro v seen s2 h
    cases v with
    | prim => cases h; exact fun x hx => hx
    | ref r =>
      rw [tvisit_ref_succ] at h
      cases hlook : lookupNode heap r with
      | none =>
        rw [hlook] at h
        simp only [tvisitBody] at h
        cases h; exact fun x hx => hx
      | some node =>
        rw [hlook] at h
        simp only [tvisitBody] at h
        by_cases hfz : (node.frozen || node.isVNode) = true
        · rw [if_pos hfz] at h; cases h; exact fun x hx => hx
        · rw [if_neg hfz] at h
          cases hob : node.ob with
          | some d =>
            rw [hob] at h
            dsimp only at h
            by_cases hd : d ∈ seen
            · rw [if_pos hd] at h; cases h; exact fun x hx => hx
            · rw [if_neg hd] at h
              intro x hx
              exact hlist _ _ _ h x (List.mem_cons_of_mem d hx)
          | none =>
            rw [hob] at h
            dsimp only at h
            exact hlist _ _ _ h

/-- A found node belongs to the heap. -/
theorem lookupNode_mem {heap : THeap} {r : Nat} {node : TNode}
    (h : lookupNode heap r = some node) : (r, node) ∈ heap := by
  unfold lookupNode at h
  cases hf : heap.find? (fun p => p.1 == r) with
  | none => rw [hf] at h; cases h
  | some p =>
    rw [hf] at h
    have hp := List.find?_some hf
    have hmem := List.mem_of_find?_eq_some hf
    have h1 : p.1 = r := by simpa using hp
    have h2 : p.2 = node := by cases h; rfl
    have hpr : p = (r, node) := Prod.ext h1 h2
    rwa [hpr] at hmem

/-- When every container in the heap is frozen, a VNode, or observed, a
fuel budget exceeding the number of unseen observed Dep ids completes the
traversal: each recursion level into a container adds a previously unseen
Dep id to the seen-set. -/
theorem tvisit_total (heap : THeap)
    (H : ∀ p, p ∈ heap →
      p.2.frozen = true ∨ p.2.isVNode = true ∨ p.2.ob.isSome = true) :
    ∀ fuel v seen, (unseenDeps heap seen).length < fuel →
      (tvisit heap fuel v seen).isSome = true := by
  intro fuel
  induction fuel with
  | zero => intro v seen h; omega
  | succ fuel ih =>
    have hlist : ∀ l seen, (unseenDeps heap seen).length < fuel →
        (tlistWith (tvisit heap fuel) l seen).isSome = true := by
      intro l
      induction l with
      | nil => intro seen h; simp [tlistWith]
      | cons v vs ihl =>
        intro seen h
        have hv := ih v seen h
        cases hvv : tvisit heap fuel v seen with
        | none => rw [hvv] at hv; cases hv
        | some s1 =>
          have hmono := tvisit_seen_mono heap fuel v seen s1 hvv
          have hle : (unseenDeps heap s1).length ≤ (unseenDeps heap seen).length :=
            unseenDeps_mono heap hmono
          simp only [tlistWith, hvv, Option.some_bind]
          exact ihl s1 (by omega)
    intro v seen h
    cases v with
    | prim => simp [tvisit]
    | ref r =>
      rw [tvisit_ref_succ]
      cases hlook : lookupNode heap r with
      | none => simp [tvisitBody]
      | some node =>
        simp only [tvisitBody]
        by_cases hfz : (node.frozen || node.isVNode) = true
        · simp [hfz]
        · rw [if_neg hfz]
          have hobs : node.ob.isSome = true := by
            have hH := H (r, node) (lookupNode_mem hlook)
            dsimp only at hH
            rcases hH with hh | hh | hh
            · exact absurd (by simp [hh] : (node.frozen || node.isVNode) = true) hfz
            · exact absurd (by simp [hh] : (node.frozen || node.isVNode) = true) hfz
            · exact hh
          cases hob : node.ob with
          | none => rw [hob] at hobs; cases hobs
          | some d =>
            dsimp only
            by_cases hd : d ∈ seen
            · simp [hd]
            · rw [if_neg hd]
              have hdmem : d ∈ heapDeps heap := by
                unfold heapDeps
                exact List.mem_filterMap.mpr ⟨(r, node), lookupNode_mem hlook, hob⟩
              have hlt := unseenDeps_cons_lt heap hdmem hd
              exact hlist node.children.reverse (d :: seen) (by omega)

/-- C10 amended: on a finite object graph whose containers are all frozen,
VNodes, or observed (the shape reactive data has — `observe` wraps every
plain extensible container it walks), `traverse` terminates, including in
the presence of circular references: the Dep-id seen-set cuts every cycle.
The skip guards for non-objects, frozen values, VNodes and already-seen
Dep ids behave as claimed, and the shared seen-set is cleared after every
top-level `traverse` call. -/
theorem C10_traverse_terminates (heap : THeap)
    (H : ∀ p, p ∈ heap →
      p.2.frozen = true ∨ p.2.isVNode = true ∨ p.2.ob.isSome = true)
    (v : TVal) :
    (∃ fuel, (tvisit heap fuel v []).isSome = true) ∧
    (∀ fuel seen, tvisit heap fuel .prim seen = some seen) ∧
    (∀ fuel r node seen, lookupNode heap r = some node →
      (node.frozen = true ∨ node.isVNode = true) →
      tvisit heap (fuel + 1) (.ref r) seen = some seen) ∧
    (∀ fuel r node d seen, lookupNode heap r = some node →
      node.frozen = false → node.isVNode = false → node.ob = some d →
      d ∈ seen → tvisit heap (fuel + 1) (.ref r) seen = some seen) ∧
    (∀ fuel seenObjects, (traverse heap fuel v seenObjects).2 = []) := by
  refine ⟨?_, ?_, ?_, ?_, ?_⟩
  · exact ⟨(unseenDeps heap []).length + 1,
      tvisit_total heap H _ v [] (Nat.lt_succ_self _)⟩
  · intro fuel seen; cases fuel <;> rfl
  · intro fuel r node seen hlook hfz
    have hcond : (node.frozen || node.isVNode) = true := by
      rcases hfz with h | h <;> simp [h]
    rw [tvisit_ref_succ, hlook]
    simp [tvisitBody, hcond]
  · intro fuel r node d seen hlook hf hv hob hd
    rw [tvisit_ref_succ, hlook]
    simp [tvisitBody, hf, hv, hob, hd]
  · intro fuel seenObjects; rfl

/-- Witness for C10's amended theorem: a two-container cycle of observed
nodes terminates. -/
theorem C10_traverse_terminates_witness :
    (∃ fuel, (tvisit [(0, ⟨false, false, some 10, [TVal.ref 1]⟩),
        (1, ⟨false, false, some 11, [TVal.ref 0]⟩)] fuel (.ref 0) []).isSome = true) :=
  (C10_traverse_terminates
    [(0, ⟨false, false, some 10, [TVal.ref 1]⟩),
     (1, ⟨false, false, some 11, [TVal.ref 0]⟩)]
    (by decide) (.ref 0)).1

/-- A two-container reference cycle of plain, unfrozen, unobserved
containers: the seen-set guard never applies, so `_traverse` recurses
forever. -/
def cyclicPlainHeap : THeap :=
  [(0, ⟨false, false, none, [TVal.ref 1]⟩),
   (1, ⟨false, false, none, [TVal.ref 0]⟩)]

theorem cyclicPlainHeap_spins :
    ∀ fuel seen, tvisit cyclicPlainHeap fuel (.ref 0) seen = none ∧
      tvisit cyclicPlainHeap fuel (.ref 1) seen = none := by
  intro fuel
  induction fuel with
  | zero => intro seen; exact ⟨rfl, rfl⟩
  | succ fuel ih =>
    intro seen
    constructor
    · rw [tvisit_ref_succ,
        show lookupNode cyclicPlainHeap 0 = some ⟨false, false, none, [TVal.ref 1]⟩ from rfl]
      simp [tvisitBody, tlistWith, (ih seen).2]
    · rw [tvisit_ref_succ,
        show lookupNode cyclicPlainHeap 1 = some ⟨false, false, none, [TVal.ref 0]⟩ from rfl]
      simp [tvisitBody, tlistWith, (ih seen).1]

/-- C10 counterexample: `_traverse` does not terminate on every finite
object graph — on a finite cycle of plain unobserved containers (no
`__ob__`, not frozen, not VNodes) no fuel budget completes the recursion:
the source would recurse without bound. -/
theorem C10_traverse_cycle_diverges :
    ¬ ∃ fuel, (tvisit cyclicPlainHeap fuel (.ref 0) []).isSome = true := by
  rintro ⟨fuel, h⟩
  rw [(cyclicPlainHeap_spins fuel []).1] at h
  cases h

end VueCore
